import Mathlib

/-!
rfkill: wire codec, switch state machine and drain handshake.

A shallow embedding of `event.go`, `switch.go` and `rfkill.go`.

* Go's `int` is a two's-complement machine integer of `w` bits (`w = 64` on
  amd64/arm64, `w = 32` on 386/arm).  Field values are mathematical integers
  (`Int`); wherever the source performs an operation that can overflow the
  word (the left shifts of `unmarshal`), the word size `w` is a parameter and
  the result is wrapped explicitly.
* Go's `byte` is `Fin 256`.
* Go's `map[int]*Switch` is an association list; every key of the Go map has
  its own freshly allocated `Switch` (the only insertion is `handle`'s `OpAdd`
  case), so the pointee is stored by value under its key.
* Go function values (callbacks) are represented by an identifier.
-/

namespace Rfkill

/-! ## event.go -/

/-- Go's `byte` / `uint8`. -/
abbrev Byte := Fin 256

/-- Event is the representation of an rfkill event (`event.go:4-10`). -/
structure Event where
  idx : Int
  typ : Int
  op : Int
  soft : Bool
  hard : Bool
deriving DecidableEq, Repr

/-- The record size `eventSize` (`event.go:12`). -/
def eventSize : Int := 8

/-- OpAdd indicates a switch has been added. -/
def OpAdd : Int := 0
/-- OpDel indicates a switch has been removed. -/
def OpDel : Int := 1
/-- OpChange indicates a switch has been changed. -/
def OpChange : Int := 2
/-- OpChangeAll indicates all switches or all specific type switches have been changed. -/
def OpChangeAll : Int := 3

/-- Go's conversion `uint8(x)` of an `int`: the low eight bits. -/
def uint8 (x : Int) : Byte := ⟨(x % 256).toNat, by omega⟩

/-- Go's `btoi` (`event.go:68-73`). -/
def btoi (b : Bool) : Int := if b then 1 else 0

/-- Go's `itob` (`event.go:66`). -/
def itob (i : Int) : Bool := decide (i ≠ 0)

/-- Go's `Event.marshal` (`event.go:41-53`): `make([]byte, 8)` followed by the
eight assignments `b[k] = ...`; `>>` on a signed `int` is the arithmetic shift
(the shift count is a natural number). -/
def marshal (e : Event) : List Byte :=
  let b : List Byte := List.replicate 8 0
  let b := b.set 0 (uint8 e.idx)
  let b := b.set 1 (uint8 (e.idx >>> (8 : Nat)))
  let b := b.set 2 (uint8 (e.idx >>> (16 : Nat)))
  let b := b.set 3 (uint8 (e.idx >>> (24 : Nat)))
  let b := b.set 4 (uint8 e.typ)
  let b := b.set 5 (uint8 e.op)
  let b := b.set 6 (uint8 (btoi e.soft))
  let b := b.set 7 (uint8 (btoi e.hard))
  b

/-- The value of a `w`-bit two's-complement word whose bit pattern is `p`. -/
def toSigned (w : Nat) (p : Nat) : Int :=
  if p % 2 ^ w < 2 ^ (w - 1) then ((p % 2 ^ w : Nat) : Int)
  else ((p % 2 ^ w : Nat) : Int) - ((2 ^ w : Nat) : Int)

/-- Bit pattern of `int(b) << s` in a `w`-bit word: bits shifted out of the
word are lost. -/
def shlWord (w : Nat) (b : Byte) (s : Nat) : Nat := (b.val <<< s) % 2 ^ w

/-- Go's `Event.unmarshal` (`event.go:55-64`) on a `w`-bit `int`.  The result
is `none` when an index expression `b[k]` is out of range (Go panics).  The
index is the bitwise or of the four shifted bytes, read as a signed word. -/
def unmarshal (w : Nat) (b : List Byte) : Option Event := do
  let b0 ← b[0]?
  let b1 ← b[1]?
  let b2 ← b[2]?
  let b3 ← b[3]?
  let b4 ← b[4]?
  let b5 ← b[5]?
  let b6 ← b[6]?
  let b7 ← b[7]?
  pure {
    idx := toSigned w (shlWord w b0 0 ||| shlWord w b1 8 ||| shlWord w b2 16 ||| shlWord w b3 24)
    typ := (b4.val : Int)
    op := (b5.val : Int)
    soft := itob (b6.val : Int)
    hard := itob (b7.val : Int) }

/-- Go's `Event.Index` (`event.go:27`). -/
def Event.Index (e : Event) : Int := e.idx

/-- Go's `Event.Type` (`event.go:30`). -/
def Event.Type (e : Event) : Int := e.typ

/-- Go's `Event.SoftBlocked` (`event.go:33`). -/
def Event.SoftBlocked (e : Event) : Bool := e.soft

/-- Go's `Event.HardBlocked` (`event.go:36`). -/
def Event.HardBlocked (e : Event) : Bool := e.hard

/-- Go's `Event.Blocked` (`event.go:39`). -/
def Event.Blocked (e : Event) : Bool := e.soft || e.hard


/-! ## switch.go -/

/-- Go's `Type` (`switch.go:12`): the type of a switch, an `int`. -/
abbrev SwitchType := Int

/-- TypeAll is the type used to specify all the switches. -/
def TypeAll : SwitchType := 0
/-- TypeWLAN is the type of a 802.11 wireless switch. -/
def TypeWLAN : SwitchType := 1
/-- TypeBluetooth is the type of a bluetooth switch. -/
def TypeBluetooth : SwitchType := 2
/-- TypeUWB is the type of an ultra wideband switch. -/
def TypeUWB : SwitchType := 3
/-- TypeWimax is the type of a WiMax switch. -/
def TypeWimax : SwitchType := 4
/-- TypeWWAN is the type of a wireless WAN switch. -/
def TypeWWAN : SwitchType := 5
/-- TypeGPS is the type of a GPS switch. -/
def TypeGPS : SwitchType := 6
/-- TypeFM is the type of a FM radio switch. -/
def TypeFM : SwitchType := 7
/-- TypeNFC is the type of a NFC switch. -/
def TypeNFC : SwitchType := 8
/-- TypeUnknown is the type of an Unknown switch. -/
def TypeUnknown : SwitchType := 9

/-- Go's map literal `typString` (`switch.go:37-48`), as its list of entries. -/
def typString : List (SwitchType × String) :=
  [ (TypeAll, "all"), (TypeWLAN, "wlan"), (TypeBluetooth, "bluetooth"), (TypeUWB, "uwb"),
    (TypeWimax, "wimax"), (TypeWWAN, "wwan"), (TypeGPS, "gps"), (TypeFM, "fm"),
    (TypeNFC, "nfc"), (TypeUnknown, "unknown") ]

/-- Go's `Type.String` (`switch.go:50-55`): the entry of `typString` when there
is one, and otherwise the literal of line 54. -/
def SwitchType.String (t : SwitchType) : String :=
  match typString.lookup t with
  | some s => s
  | none => "unkown"

/-- Identity of a Go function value registered as an event handler. -/
abbrev Handler := Nat

/-- Switch is a switch on a RF device (`switch.go:58-62`): the embedded `Event`
and the handler `fn` (`none` is Go's `nil`).  The back pointer `r` only serves
to reach the session's `send` and channels and is passed explicitly instead. -/
structure Switch extends Event where
  fn : Option Handler
deriving DecidableEq, Repr

/-- Go's `Switch.Index` (`switch.go:74`). -/
def Switch.Index (s : Switch) : Int := s.idx

/-- Go's `Switch.Type` (`switch.go:77`). -/
def Switch.Type (s : Switch) : SwitchType := s.typ

/-- Go's `Switch.SoftBlocked` (`switch.go:80`). -/
def Switch.SoftBlocked (s : Switch) : Bool := s.soft

/-- Go's `Switch.HardBlocked` (`switch.go:83`). -/
def Switch.HardBlocked (s : Switch) : Bool := s.hard

/-- Go's `Switch.Blocked` (`switch.go:86`). -/
def Switch.Blocked (s : Switch) : Bool := s.soft || s.hard

/-- The state effect of Go's `Switch.Listen` (`switch.go:96`): `s.fn = fn`.
The trigger loop it starts is the `loop` process of the handshake model. -/
def Switch.Listen (s : Switch) (fn : Handler) : Switch := { s with fn := some fn }

/-! ## rfkill.go: the device -/

/-- Errors built with `fmt.Errorf` in `rfkill.go`, one constructor per format
string, carrying the formatted argument. -/
inductive Error
  /-- The error "changing non-existing switch idx: %d" (`rfkill.go:113`). -/
  | changingNonExisting (idx : Int)
  /-- The error "unknown Event op: %d" (`rfkill.go:123`). -/
  | unknownOp (op : Int)
  /-- The error "can't read /dev/rfkill: %v" (`rfkill.go:136`). -/
  | cantRead (errno : Nat)
  /-- The error "wrong Event size: %d" (`rfkill.go:99`, `rfkill.go:138`). -/
  | wrongSize (n : Int)
  /-- The error "can't handle event: %s" (`rfkill.go:144`). -/
  | cantHandle (cause : Error)
  /-- The error "can't write to /dev/rfkill: %s" (`rfkill.go:97`). -/
  | cantWrite (errno : Nat)
  /-- Go's run-time panic for an index expression out of range. -/
  | indexOutOfRange
deriving DecidableEq, Repr

/-- Outcome of one `syscall.Read(r.fd, b)`. -/
inductive ReadResult
  /-- The call failed with `err == syscall.EAGAIN`: no data available. -/
  | eagain
  /-- The call failed with another `errno`. -/
  | failed (errno : Nat)
  /-- The call copied `bytes` to the start of `b` and returned `n = len(bytes)`. -/
  | data (bytes : List Byte)
deriving DecidableEq, Repr

/-- The write side of `/dev/rfkill` as the session sees it through `r.fd`: the
buffers handed to `syscall.Write` so far (oldest first), and the `(n, errno)`
that a write of a given buffer returns.  The read side is the list of the
outcomes of the successive reads, a `List ReadResult`; a device whose list is
exhausted has no data and answers `EAGAIN`. -/
structure Device where
  written : List (List Byte)
  writeRet : List Byte → Int × Option Nat

/-! ## rfkill.go: the session -/

/-- Go's `map[int]*Switch`. -/
abbrev SwitchMap := List (Int × Switch)

/-- Go's map index expression `d, ok := m[k]`. -/
def mapGet : SwitchMap → Int → Option Switch
  | [], _ => none
  | (k', v) :: m, k => if k' = k then some v else mapGet m k

/-- Go's map assignment `m[k] = v`. -/
def mapSet : SwitchMap → Int → Switch → SwitchMap
  | [], k, v => [(k, v)]
  | (k', v') :: m, k, v => if k' = k then (k, v) :: m else (k', v') :: mapSet m k v

/-- Go's `delete(m, k)`. -/
def mapDelete : SwitchMap → Int → SwitchMap
  | [], _ => []
  | (k', v) :: m, k => if k' = k then mapDelete m k else (k', v) :: mapDelete m k

/-- The keys of a map. -/
def mapKeys (m : SwitchMap) : List Int := m.map Prod.fst

/-- RFKill is the control device of wireless switches (`rfkill.go:10-17`): the
switch states `sw` and the handler `fn` registered with `Listen`.  The kernel
side of `fd` is a `Device` for writes and a `List ReadResult` for reads; `d`,
`c` and `done` belong to the handshake model. -/
structure RFKill where
  sw : SwitchMap
  fn : Option Handler
deriving DecidableEq, Repr

/-- The state effect of Go's `RFKill.Listen` (`rfkill.go:54-58`): `r.fn = fn`. -/
def RFKill.Listen (r : RFKill) (fn : Handler) : RFKill := { r with fn := some fn }

/-- Go's `RFKill.send` (`rfkill.go:94-102`). -/
def send (dev : Device) (e : Event) : Device × Option Error :=
  let b := marshal e
  let dev' : Device := { dev with written := dev.written ++ [b] }
  match dev.writeRet b with
  | (_, some errno) => (dev', some (Error.cantWrite errno))
  | (n, none) => if n ≠ eventSize then (dev', some (Error.wrongSize n)) else (dev', none)

/-- Go's `Switch.Block` (`switch.go:89`): the composite literal leaves `typ`
and `hard` at their zero values. -/
def Switch.Block (s : Switch) (dev : Device) : Device × Option Error :=
  send dev { op := OpChange, idx := s.idx, soft := true, typ := 0, hard := false }

/-- Go's `Switch.Unblock` (`switch.go:92`). -/
def Switch.Unblock (s : Switch) (dev : Device) : Device × Option Error :=
  send dev { op := OpChange, idx := s.idx, soft := false, typ := 0, hard := false }

/-- The loop of the `OpChangeAll` case (`rfkill.go:117-121`): every switch of
the map whose `typ` is the event's gets `d.Event = *e`. -/
def changeAll : SwitchMap → Event → SwitchMap
  | [], _ => []
  | (k, d) :: m, e =>
    (k, if d.typ = e.typ then { d with toEvent := e } else d) :: changeAll m e

/-- Go's `RFKill.handle` (`rfkill.go:104-126`).  The session after the call and
the returned error (`none` is `nil`).  In the `OpChange` and `OpChangeAll`
cases `d.Event = *e` overwrites the embedded event of the switch and keeps its
`fn`. -/
def handle (r : RFKill) (e : Event) : RFKill × Option Error :=
  if e.op = OpAdd then
    ({ r with sw := mapSet r.sw e.idx { toEvent := e, fn := none } }, none)
  else if e.op = OpDel then
    ({ r with sw := mapDelete r.sw e.idx }, none)
  else if e.op = OpChange then
    match mapGet r.sw e.idx with
    | none => (r, some (Error.changingNonExisting e.idx))
    | some d => ({ r with sw := mapSet r.sw e.idx { d with toEvent := e } }, none)
  else if e.op = OpChangeAll then
    ({ r with sw := changeAll r.sw e }, none)
  else
    (r, some (Error.unknownOp e.op))

/-- A handler invocation started by `poll`. -/
inductive Call
  /-- The statement `go s.fn(e)` of `rfkill.go:149`. -/
  | switchFn (fn : Handler) (e : Event)
  /-- The statement `go r.fn(e)` of `rfkill.go:154`. -/
  | sessionFn (fn : Handler) (e : Event)
deriving DecidableEq, Repr

/-- The notifications of one iteration of `poll` (`rfkill.go:147-155`), on the
session as `handle` left it. -/
def notify (r : RFKill) (e : Event) : List Call :=
  (match mapGet r.sw e.Index with
    | some s =>
      match s.fn with
      | some fn => [Call.switchFn fn e]
      | none => []
    | none => [])
  ++
  (match r.fn with
    | some fn => [Call.sessionFn fn e]
    | none => [])

/-- What a run of `poll` leaves behind: the session, the read outcomes not yet
consumed, the handler invocations started (oldest first) and the returned error. -/
structure PollResult where
  r : RFKill
  pending : List ReadResult
  calls : List Call
  err : Option Error
deriving DecidableEq, Repr

/-- The loop of Go's `RFKill.poll` (`rfkill.go:131-156`) with the buffer `b`
and the invocations started so far. -/
def pollLoop (w : Nat) : List ReadResult → RFKill → List Byte → List Call → PollResult
  | [], r, _, calls => ⟨r, [], calls, none⟩
  | ReadResult.eagain :: rest, r, _, calls => ⟨r, rest, calls, none⟩
  | ReadResult.failed errno :: rest, r, _, calls => ⟨r, rest, calls, some (Error.cantRead errno)⟩
  | ReadResult.data bytes :: rest, r, b, calls =>
    if (bytes.length : Int) ≠ eventSize then
      ⟨r, rest, calls, some (Error.wrongSize bytes.length)⟩
    else
      let b' := bytes ++ b.drop bytes.length
      match unmarshal w b' with
      | none => ⟨r, rest, calls, some Error.indexOutOfRange⟩
      | some e =>
        match handle r e with
        | (r', some err) => ⟨r', rest, calls, some (Error.cantHandle err)⟩
        | (r', none) => pollLoop w rest r' b' (calls ++ notify r' e)

/-- Go's `RFKill.poll` (`rfkill.go:128-157`): `b := make([]byte, 256)`, then the loop. -/
def poll (w : Nat) (r : RFKill) (pending : List ReadResult) : PollResult :=
  pollLoop w pending r (List.replicate 256 0) []

/-- Filter is a function, which passes switches with specified condition (`rfkill.go:77`). -/
abbrev Filter := Switch → Bool

/-- Any is a filter which passes any switch (`rfkill.go:80`). -/
def Any : Filter := fun _ => true

/-- WithType is a filter which passes switches with the specified type (`rfkill.go:83`). -/
def WithType (t : SwitchType) : Filter := fun s => decide (s.Type = t)

/-- WithTypeName is a filter which passes switches with the specified type (`rfkill.go:86`). -/
def WithTypeName (n : String) : Filter := fun s => decide (SwitchType.String s.Type = n)

/-- WithIndex is a filter which passes switches with the specified index (`rfkill.go:89`). -/
def WithIndex (i : Int) : Filter := fun s => decide (s.Index = i)

/-- The loop of Go's `RFKill.Switches` (`rfkill.go:67-72`) over the entries of
the map, in the order the map yields them. -/
def collect (f : Filter) (m : SwitchMap) : List Switch :=
  m.foldl (fun ss p => if f p.2 then ss ++ [p.2] else ss) []

/-- What a call of `Switches` leaves behind. -/
structure SwitchesResult where
  ss : List Switch
  err : Option Error
  r : RFKill
  pending : List ReadResult
  calls : List Call
deriving DecidableEq, Repr

/-- Go's `RFKill.Switches` (`rfkill.go:61-74`) for a single requester: the
handshake of lines 64-65 makes the worker run `r.poll()` once (`rfkill.go:40`,
its error is dropped), then the loop collects from `r.sw`. -/
def Switches (w : Nat) (r : RFKill) (pending : List ReadResult) (f : Filter) : SwitchesResult :=
  let p := poll w r pending
  ⟨collect f p.r.sw, none, p.r, p.pending, p.calls⟩

/-! ## The drain handshake on the channel `r.c`

`Open` makes `r.c` with `make(chan bool)`: an unbuffered channel, on which a
send completes exactly when it is paired with a receive of another goroutine.
The goroutines are the worker started by `Open`, the calls of `Switches`, and
the trigger loops started by `RFKill.Listen` and `Switch.Listen`; each is
represented by its program counter.  The session is open (`r.done` is not
closed). -/

/-- Program counter of the worker goroutine (`rfkill.go:33-43`). -/
inductive WorkerPc
  /-- Blocked in the `select` of line 35, ready to receive from `r.c`. -/
  | idle
  /-- Inside `r.poll()` (line 40), writing `r.sw`. -/
  | draining
  /-- Blocked in the send `r.c <- true` of line 41. -/
  | acking
deriving DecidableEq, Repr

/-- Program counter of one call of `Switches` (`rfkill.go:61-74`). -/
inductive CallerPc
  /-- Blocked in the send `r.c <- true` of line 64. -/
  | requesting
  /-- Blocked in the receive `<-r.c` of line 65. -/
  | waiting
  /-- In the loop of lines 67-72, reading `r.sw`. -/
  | reading
  /-- Returned (line 73). -/
  | returned
deriving DecidableEq, Repr

/-- Program counter of one trigger loop (`rfkill.go:159-169`, `switch.go:97-107`). -/
inductive LoopPc
  /-- Blocked in the `select`, ready to send on `r.c`. -/
  | requesting
  /-- Blocked in the receive `<-r.c`. -/
  | waiting
  /-- In `time.Sleep`. -/
  | sleeping
deriving DecidableEq, Repr

/-- The goroutines that use `r.c`. -/
inductive Proc
  | worker
  | caller (i : Nat)
  | loop (j : Nat)
deriving DecidableEq, Repr

/-- State of the handshake: the program counters, and the number of drain
cycles the worker has begun. -/
structure Handshake where
  worker : WorkerPc
  callers : List CallerPc
  loops : List LoopPc
  cycles : Nat
deriving DecidableEq, Repr

/-- One scheduling step. -/
inductive Action
  /-- A send on `r.c` by `sender` is paired with a receive on `r.c` by `receiver`. -/
  | sync (sender receiver : Proc)
  /-- The worker's `r.poll()` returns. -/
  | pollReturns
  /-- Call `i` of `Switches` finishes its loop and returns. -/
  | callReturns (i : Nat)
  /-- The sleep of trigger loop `j` ends. -/
  | wakes (j : Nat)
deriving DecidableEq, Repr

/-- Whether the goroutine is blocked in a send on `r.c`. -/
def sending (s : Handshake) : Proc → Bool
  | Proc.worker => decide (s.worker = WorkerPc.acking)
  | Proc.caller i => decide (s.callers[i]? = some CallerPc.requesting)
  | Proc.loop j => decide (s.loops[j]? = some LoopPc.requesting)

/-- Whether the goroutine is blocked in a receive on `r.c`. -/
def receiving (s : Handshake) : Proc → Bool
  | Proc.worker => decide (s.worker = WorkerPc.idle)
  | Proc.caller i => decide (s.callers[i]? = some CallerPc.waiting)
  | Proc.loop j => decide (s.loops[j]? = some LoopPc.waiting)

/-- The goroutine moves past its send on `r.c`. -/
def afterSend (s : Handshake) : Proc → Handshake
  | Proc.worker => { s with worker := WorkerPc.idle }
  | Proc.caller i => { s with callers := s.callers.set i CallerPc.waiting }
  | Proc.loop j => { s with loops := s.loops.set j LoopPc.waiting }

/-- The goroutine moves past its receive on `r.c`; the worker begins a drain cycle. -/
def afterReceive (s : Handshake) : Proc → Handshake
  | Proc.worker => { s with worker := WorkerPc.draining, cycles := s.cycles + 1 }
  | Proc.caller i => { s with callers := s.callers.set i CallerPc.reading }
  | Proc.loop j => { s with loops := s.loops.set j LoopPc.sleeping }

/-- The state after an action, `none` when the action is not enabled. -/
def step (s : Handshake) : Action → Option Handshake
  | Action.sync p q =>
    if sending s p && receiving s q then some (afterReceive (afterSend s p) q) else none
  | Action.pollReturns =>
    if s.worker = WorkerPc.draining then some { s with worker := WorkerPc.acking } else none
  | Action.callReturns i =>
    if s.callers[i]? = some CallerPc.reading then
      some { s with callers := s.callers.set i CallerPc.returned }
    else none
  | Action.wakes j =>
    if s.loops[j]? = some LoopPc.sleeping then
      some { s with loops := s.loops.set j LoopPc.requesting }
    else none

/-- The state after a schedule, `none` when some action of it is not enabled. -/
def run (s : Handshake) : List Action → Option Handshake
  | [] => some s
  | a :: as => (step s a).bind (fun s' => run s' as)

/-- The state right after `Open`, with `n` calls of `Switches` and `m` trigger
loops about to send their request. -/
def start (n m : Nat) : Handshake :=
  ⟨WorkerPc.idle, List.replicate n CallerPc.requesting, List.replicate m LoopPc.requesting, 0⟩

/-- The states a lone call of `Switches` and the worker go through. -/
def loneStates : List Handshake :=
  [ ⟨WorkerPc.idle, [CallerPc.requesting], [], 0⟩,
    ⟨WorkerPc.draining, [CallerPc.waiting], [], 1⟩,
    ⟨WorkerPc.acking, [CallerPc.waiting], [], 1⟩,
    ⟨WorkerPc.idle, [CallerPc.reading], [], 1⟩,
    ⟨WorkerPc.idle, [CallerPc.returned], [], 1⟩ ]

/-! ## Theorems -/

/-! ### C1, C2: the wire codec -/

theorem or_shiftLeft_eq_add (x b s : Nat) (hx : x < 2 ^ s) : x ||| b <<< s = 2 ^ s * b + x := by
  rw [Nat.mul_add_lt_is_or hx, Nat.or_comm, Nat.shiftLeft_eq, Nat.mul_comm]

theorem or4_eq_sum (b0 b1 b2 b3 : Nat) (h0 : b0 < 256) (h1 : b1 < 256) (h2 : b2 < 256) :
    b0 ||| b1 <<< 8 ||| b2 <<< 16 ||| b3 <<< 24 = b0 + 256 * b1 + 65536 * b2 + 16777216 * b3 := by
  rw [or_shiftLeft_eq_add b0 b1 8 (by omega), or_shiftLeft_eq_add _ b2 16 (by omega),
    or_shiftLeft_eq_add _ b3 24 (by omega)]
  omega

theorem marshal_eq (e : Event) :
    marshal e = [uint8 e.idx, uint8 (e.idx >>> (8 : Nat)), uint8 (e.idx >>> (16 : Nat)), uint8 (e.idx >>> (24 : Nat)),
      uint8 e.typ, uint8 e.op, uint8 (btoi e.soft), uint8 (btoi e.hard)] := rfl

theorem uint8_val (x : Int) : ((uint8 x).val : Int) = x % 256 := by
  simp [uint8]
  omega

theorem uint8_val_nat (x : Int) : (uint8 x).val = (x % 256).toNat := rfl

theorem itob_btoi (b : Bool) : itob (btoi b % 256) = b := by
  cases b <;> decide

/-- The bit pattern that `unmarshal` assembles from the four index bytes of
`marshal e` is the low 32 bits of `e.idx`, on every word of at least 32 bits. -/
theorem idx_pattern (w : Nat) (hw : 32 ≤ w) (i : Int) :
    (shlWord w (uint8 i) 0 ||| shlWord w (uint8 (i >>> (8 : Nat))) 8 ||| shlWord w (uint8 (i >>> (16 : Nat))) 16
      ||| shlWord w (uint8 (i >>> (24 : Nat))) 24) = (i % 2 ^ 32).toNat := by
  have hp : (2 : Nat) ^ 32 ≤ 2 ^ w := Nat.pow_le_pow_right (by decide) hw
  have s0 : shlWord w (uint8 i) 0 = (uint8 i).val := by
    simp only [shlWord, Nat.shiftLeft_zero]
    exact Nat.mod_eq_of_lt (by have := (uint8 i).isLt; omega)
  have s1 : shlWord w (uint8 (i >>> (8 : Nat))) 8 = (uint8 (i >>> (8 : Nat))).val <<< 8 := by
    simp only [shlWord, Nat.shiftLeft_eq]
    exact Nat.mod_eq_of_lt (by have := (uint8 (i >>> (8 : Nat))).isLt; omega)
  have s2 : shlWord w (uint8 (i >>> (16 : Nat))) 16 = (uint8 (i >>> (16 : Nat))).val <<< 16 := by
    simp only [shlWord, Nat.shiftLeft_eq]
    exact Nat.mod_eq_of_lt (by have := (uint8 (i >>> (16 : Nat))).isLt; omega)
  have s3 : shlWord w (uint8 (i >>> (24 : Nat))) 24 = (uint8 (i >>> (24 : Nat))).val <<< 24 := by
    simp only [shlWord, Nat.shiftLeft_eq]
    exact Nat.mod_eq_of_lt (by have := (uint8 (i >>> (24 : Nat))).isLt; omega)
  rw [s0, s1, s2, s3, or4_eq_sum _ _ _ _ (uint8 i).isLt (uint8 _).isLt (uint8 _).isLt]
  simp only [uint8_val_nat, Int.shiftRight_eq_div_pow]
  omega

theorem unmarshal_marshal_idx (w : Nat) (e : Event) (hw : 32 ≤ w) :
    unmarshal w (marshal e) = some { e with
      idx := toSigned w (e.idx % 2 ^ 32).toNat, typ := e.typ % 256, op := e.op % 256 } := by
  simp only [marshal_eq, unmarshal]
  simp [idx_pattern w hw, uint8_val, itob_btoi]

theorem toSigned_64 (i : Int) : toSigned 64 (i % 2 ^ 32).toNat = i % 2 ^ 32 := by
  unfold toSigned
  have h : (i % 2 ^ 32).toNat % 2 ^ 64 = (i % 2 ^ 32).toNat := Nat.mod_eq_of_lt (by omega)
  rw [h, if_pos (by omega)]
  omega

theorem toSigned_32 (i : Int) (h1 : -2 ^ 31 ≤ i) (h2 : i < 2 ^ 31) :
    toSigned 32 (i % 2 ^ 32).toNat = i := by
  unfold toSigned
  have h : (i % 2 ^ 32).toNat % 2 ^ 32 = (i % 2 ^ 32).toNat := Nat.mod_eq_of_lt (by omega)
  rw [h]
  split <;> omega

/-- C1 (as stated, refuted): the event with index `-1`, type wlan and operation
change lies in the claimed range, and with a 64-bit `int` it decodes from its
own record with index `4294967295`, not `-1`. -/
theorem unmarshal_marshal_negative_idx :
    (-2 ^ 31 ≤ (⟨-1, 1, 2, true, false⟩ : Event).idx
      ∧ (⟨-1, 1, 2, true, false⟩ : Event).idx < 2 ^ 31)
    ∧ marshal ⟨-1, 1, 2, true, false⟩ = [255, 255, 255, 255, 1, 2, 1, 0]
    ∧ unmarshal 64 (marshal ⟨-1, 1, 2, true, false⟩) = some ⟨4294967295, 1, 2, true, false⟩
    ∧ unmarshal 64 (marshal ⟨-1, 1, 2, true, false⟩) ≠ some ⟨-1, 1, 2, true, false⟩ := by
  decide

/-- C1 (amended): for every event with index in the signed 32-bit range, type
in 0..9 and operation in 0..3, `unmarshal` of `marshal e` succeeds and returns
`typ`, `op`, `soft` and `hard` unchanged; with a 64-bit `int` the index comes
back as `idx mod 2^32`, which is `idx` itself when `idx` is not negative and
`idx + 2^32` when it is; with a 32-bit `int` the whole event comes back. -/
theorem unmarshal_marshal_roundtrip (e : Event)
    (hlo : -2 ^ 31 ≤ e.idx) (hhi : e.idx < 2 ^ 31)
    (htyp : 0 ≤ e.typ ∧ e.typ ≤ 9) (hop : 0 ≤ e.op ∧ e.op ≤ 3) :
    unmarshal 64 (marshal e) = some { e with idx := e.idx % 2 ^ 32 }
    ∧ (0 ≤ e.idx → unmarshal 64 (marshal e) = some e)
    ∧ (e.idx < 0 → unmarshal 64 (marshal e) = some { e with idx := e.idx + 2 ^ 32 })
    ∧ unmarshal 32 (marshal e) = some e := by
  have ht : e.typ % 256 = e.typ := by omega
  have ho : e.op % 256 = e.op := by omega
  have h64 : unmarshal 64 (marshal e) = some { e with idx := e.idx % 2 ^ 32 } := by
    rw [unmarshal_marshal_idx 64 e (by decide), toSigned_64, ht, ho]
  refine ⟨h64, ?_, ?_, ?_⟩
  · intro h
    have : e.idx % 2 ^ 32 = e.idx := by omega
    rw [h64, this]
  · intro h
    have : e.idx % 2 ^ 32 = e.idx + 2 ^ 32 := by omega
    rw [h64, this]
  · rw [unmarshal_marshal_idx 32 e (by decide), toSigned_32 e.idx hlo hhi, ht, ho]

/-- C1 witness: the amended round trip at the event with index `-5`, type
bluetooth, operation change-all. -/
theorem unmarshal_marshal_roundtrip_witness :
    unmarshal 64 (marshal ⟨-5, 2, 3, false, true⟩)
        = some { (⟨-5, 2, 3, false, true⟩ : Event) with idx := (-5) % 2 ^ 32 }
    ∧ (0 ≤ (⟨-5, 2, 3, false, true⟩ : Event).idx →
        unmarshal 64 (marshal ⟨-5, 2, 3, false, true⟩) = some ⟨-5, 2, 3, false, true⟩)
    ∧ ((⟨-5, 2, 3, false, true⟩ : Event).idx < 0 →
        unmarshal 64 (marshal ⟨-5, 2, 3, false, true⟩)
          = some { (⟨-5, 2, 3, false, true⟩ : Event) with idx := -5 + 2 ^ 32 })
    ∧ unmarshal 32 (marshal ⟨-5, 2, 3, false, true⟩) = some ⟨-5, 2, 3, false, true⟩ :=
  unmarshal_marshal_roundtrip ⟨-5, 2, 3, false, true⟩ (by decide) (by decide) (by decide)
    (by decide)

/-- C2 (as stated, refuted): for the event whose type value is `256` byte 4 of
the record is `0`, not the type value. -/
theorem marshal_typ_256 :
    marshal ⟨0, 256, 0, false, false⟩ = [0, 0, 0, 0, 0, 0, 0, 0]
    ∧ (marshal ⟨0, 256, 0, false, false⟩)[4]?.map (fun b => (b.val : Int)) = some 0
    ∧ (⟨0, 256, 0, false, false⟩ : Event).typ = 256 := by
  decide

/-- C2 (amended): for every event `marshal` returns exactly 8 bytes; byte `k`
for `k` in 0..3 is `(idx >> 8k) mod 256`, byte 4 is the type value mod 256,
byte 5 is the operation value mod 256, byte 6 is 1 if the event is
soft-blocked and 0 otherwise, byte 7 is 1 if it is hard-blocked and 0
otherwise. -/
theorem marshal_layout (e : Event) :
    (marshal e).length = 8
    ∧ (marshal e)[0]?.map (fun b => (b.val : Int)) = some (e.idx % 256)
    ∧ (marshal e)[1]?.map (fun b => (b.val : Int)) = some ((e.idx >>> (8 : Nat)) % 256)
    ∧ (marshal e)[2]?.map (fun b => (b.val : Int)) = some ((e.idx >>> (16 : Nat)) % 256)
    ∧ (marshal e)[3]?.map (fun b => (b.val : Int)) = some ((e.idx >>> (24 : Nat)) % 256)
    ∧ (marshal e)[4]?.map (fun b => (b.val : Int)) = some (e.typ % 256)
    ∧ (marshal e)[5]?.map (fun b => (b.val : Int)) = some (e.op % 256)
    ∧ (marshal e)[6]?.map (fun b => (b.val : Int)) = some (if e.soft then 1 else 0)
    ∧ (marshal e)[7]?.map (fun b => (b.val : Int)) = some (if e.hard then 1 else 0) := by
  rw [marshal_eq]
  refine ⟨rfl, ?_, ?_, ?_, ?_, ?_, ?_, ?_, ?_⟩
  · simp [uint8_val]
  · simp [uint8_val]
  · simp [uint8_val]
  · simp [uint8_val]
  · simp [uint8_val]
  · simp [uint8_val]
  · cases e.soft <;> rfl
  · cases e.hard <;> rfl


/-! ### The map operations -/

theorem mapGet_eq_none_iff (m : SwitchMap) (k : Int) : mapGet m k = none ↔ k ∉ mapKeys m := by
  induction m with
  | nil => simp [mapGet, mapKeys]
  | cons p m ih =>
    obtain ⟨k', v⟩ := p
    by_cases h : k' = k
    · simp [mapGet, mapKeys, h]
    · have h' : ¬ k = k' := fun h'' => h h''.symm
      simpa [mapGet, mapKeys, h, h'] using ih

theorem mapGet_mapSet_self (m : SwitchMap) (k : Int) (v : Switch) :
    mapGet (mapSet m k v) k = some v := by
  induction m with
  | nil => simp [mapSet, mapGet]
  | cons p m ih =>
    obtain ⟨k', v'⟩ := p
    by_cases h : k' = k
    · simp [mapSet, mapGet, h]
    · simp [mapSet, mapGet, h, ih]

theorem mapGet_mapSet_other (m : SwitchMap) (k k' : Int) (v : Switch) (h : k' ≠ k) :
    mapGet (mapSet m k v) k' = mapGet m k' := by
  induction m with
  | nil => simp [mapSet, mapGet, h.symm]
  | cons p m ih =>
    obtain ⟨k'', v'⟩ := p
    by_cases h1 : k'' = k
    · subst h1
      simp [mapSet, mapGet, h.symm]
    · by_cases h2 : k'' = k'
      · subst h2
        simp [mapSet, mapGet, h]
      · simp [mapSet, mapGet, h1, h2, ih]

theorem mapGet_mapDelete_self (m : SwitchMap) (k : Int) : mapGet (mapDelete m k) k = none := by
  induction m with
  | nil => simp [mapDelete, mapGet]
  | cons p m ih =>
    obtain ⟨k', v'⟩ := p
    by_cases h : k' = k
    · simp [mapDelete, h, ih]
    · simp [mapDelete, mapGet, h, ih]

theorem mapGet_mapDelete_other (m : SwitchMap) (k k' : Int) (h : k' ≠ k) :
    mapGet (mapDelete m k) k' = mapGet m k' := by
  induction m with
  | nil => simp [mapDelete, mapGet]
  | cons p m ih =>
    obtain ⟨k'', v'⟩ := p
    by_cases h1 : k'' = k
    · subst h1
      simp [mapDelete, mapGet, h.symm, ih]
    · by_cases h2 : k'' = k'
      · subst h2
        simp [mapDelete, mapGet, h]
      · simp [mapDelete, mapGet, h1, h2, ih]

/-- The entry under `k` after the `OpChangeAll` loop of `handle`. -/
theorem mapGet_changeAll (m : SwitchMap) (e : Event) (k : Int) :
    mapGet (changeAll m e) k
      = (mapGet m k).map (fun d => if d.typ = e.typ then { d with toEvent := e } else d) := by
  induction m with
  | nil => simp [mapGet, changeAll]
  | cons p m ih =>
    obtain ⟨k', v⟩ := p
    by_cases h : k' = k
    · by_cases ht : v.typ = e.typ <;> simp [mapGet, changeAll, h, ht]
    · by_cases ht : v.typ = e.typ <;> simp [mapGet, changeAll, h, ht, ih]

theorem mapKeys_changeAll (m : SwitchMap) (e : Event) : mapKeys (changeAll m e) = mapKeys m := by
  induction m with
  | nil => rfl
  | cons p m ih =>
    obtain ⟨k', v⟩ := p
    simp only [mapKeys] at ih
    by_cases ht : v.typ = e.typ <;> simp [mapKeys, changeAll, ht, ih]

/-! ### `handle`, case by case -/

theorem handle_add (r : RFKill) (e : Event) (h : e.op = OpAdd) :
    handle r e = ({ r with sw := mapSet r.sw e.idx { toEvent := e, fn := none } }, none) := by
  simp [handle, h]

theorem handle_del (r : RFKill) (e : Event) (h : e.op = OpDel) :
    handle r e = ({ r with sw := mapDelete r.sw e.idx }, none) := by
  simp [handle, h, OpDel, OpAdd]

theorem handle_change_some (r : RFKill) (e : Event) (d : Switch) (h : e.op = OpChange)
    (hd : mapGet r.sw e.idx = some d) :
    handle r e = ({ r with sw := mapSet r.sw e.idx { d with toEvent := e } }, none) := by
  simp [handle, h, OpDel, OpAdd, OpChange, hd]

theorem handle_change_none (r : RFKill) (e : Event) (h : e.op = OpChange)
    (hd : mapGet r.sw e.idx = none) :
    handle r e = (r, some (Error.changingNonExisting e.idx)) := by
  simp [handle, h, OpDel, OpAdd, OpChange, hd]

theorem handle_changeAll (r : RFKill) (e : Event) (h : e.op = OpChangeAll) :
    handle r e = ({ r with sw := changeAll r.sw e }, none) := by
  simp [handle, h, OpDel, OpAdd, OpChange, OpChangeAll]

theorem handle_unknown (r : RFKill) (e : Event)
    (h : e.op ∉ [OpAdd, OpDel, OpChange, OpChangeAll]) :
    handle r e = (r, some (Error.unknownOp e.op)) := by
  simp only [List.mem_cons, List.mem_singleton, not_or, List.mem_nil_iff, or_false] at h
  simp [handle, h.1, h.2.1, h.2.2.1, h.2.2.2]


/-! ### The association list stays a map -/

theorem mem_mapKeys_mapSet (m : SwitchMap) (k k' : Int) (v : Switch) :
    k' ∈ mapKeys (mapSet m k v) ↔ k' = k ∨ k' ∈ mapKeys m := by
  induction m with
  | nil => simp [mapSet, mapKeys]
  | cons p m ih =>
    obtain ⟨k'', v'⟩ := p
    simp only [mapKeys] at ih
    by_cases h : k'' = k
    · subst h
      simp [mapSet, mapKeys]
    · simp only [mapSet, h, if_false, mapKeys, List.map_cons, List.mem_cons, ih]
      tauto

theorem mem_mapKeys_mapDelete (m : SwitchMap) (k k' : Int) :
    k' ∈ mapKeys (mapDelete m k) ↔ k' ≠ k ∧ k' ∈ mapKeys m := by
  induction m with
  | nil => simp [mapDelete, mapKeys]
  | cons p m ih =>
    obtain ⟨k'', v'⟩ := p
    simp only [mapKeys] at ih
    by_cases h : k'' = k
    · subst h
      simp only [mapDelete, if_true, mapKeys, List.map_cons, List.mem_cons, ih]
      constructor
      · rintro ⟨h1, h2⟩
        exact ⟨h1, Or.inr h2⟩
      · rintro ⟨h1, h2 | h2⟩
        · exact absurd h2 h1
        · exact ⟨h1, h2⟩
    · simp only [mapDelete, h, if_false, mapKeys, List.map_cons, List.mem_cons, ih]
      constructor
      · rintro (h1 | ⟨h1, h2⟩)
        · exact ⟨by rw [h1]; exact h, Or.inl h1⟩
        · exact ⟨h1, Or.inr h2⟩
      · rintro ⟨h1, h2 | h2⟩
        · exact Or.inl h2
        · exact Or.inr ⟨h1, h2⟩

theorem nodup_mapKeys_mapSet (m : SwitchMap) (k : Int) (v : Switch) (h : (mapKeys m).Nodup) :
    (mapKeys (mapSet m k v)).Nodup := by
  induction m with
  | nil => simp [mapSet, mapKeys]
  | cons p m ih =>
    obtain ⟨k', v'⟩ := p
    have hk : k' ∉ mapKeys m ∧ (mapKeys m).Nodup := by
      simpa [mapKeys] using h
    by_cases h1 : k' = k
    · subst h1
      simpa [mapSet, mapKeys] using h
    · have hnot : k' ∉ mapKeys (mapSet m k v) := by
        rw [mem_mapKeys_mapSet]
        rintro (h2 | h2)
        · exact h1 h2
        · exact hk.1 h2
      have hrec := ih hk.2
      simp only [mapSet, h1, if_false]
      exact List.nodup_cons.2 ⟨hnot, hrec⟩

theorem nodup_mapKeys_mapDelete (m : SwitchMap) (k : Int) (h : (mapKeys m).Nodup) :
    (mapKeys (mapDelete m k)).Nodup := by
  induction m with
  | nil => simp [mapDelete, mapKeys]
  | cons p m ih =>
    obtain ⟨k', v'⟩ := p
    have hk : k' ∉ mapKeys m ∧ (mapKeys m).Nodup := by
      simpa [mapKeys] using h
    by_cases h1 : k' = k
    · simp only [mapDelete, h1, if_true]
      exact ih hk.2
    · have hnot : k' ∉ mapKeys (mapDelete m k) := by
        rw [mem_mapKeys_mapDelete]
        exact fun h2 => hk.1 h2.2
      simp only [mapDelete, h1, if_false]
      exact List.nodup_cons.2 ⟨hnot, ih hk.2⟩

/-- The keys of the session's map stay pairwise distinct under `handle`. -/
theorem handle_keys_nodup (r : RFKill) (e : Event) (h : (mapKeys r.sw).Nodup) :
    (mapKeys (handle r e).1.sw).Nodup := by
  unfold handle
  split
  · exact nodup_mapKeys_mapSet _ _ _ h
  · split
    · exact nodup_mapKeys_mapDelete _ _ h
    · split
      · split
        · exact h
        · exact nodup_mapKeys_mapSet _ _ _ h
      · split
        · simpa [mapKeys_changeAll] using h
        · exact h

/-! ### C3: `OpChangeAll` -/

/-- C3 (code defect shown): for every session and every ChangeAll event,
`handle` returns no error, keeps the keys, leaves every switch of another type
unchanged and gives every switch of the event's type the event's flags and its
own `fn`; but it assigns the whole event, so on the map `{1: wlan}` the event
ChangeAll(idx=0, type=wlan, soft) leaves under key 1 a switch whose `Index()`
is 0 and not 1. -/
theorem handle_changeAll_overwrites_index :
    (∀ (r : RFKill) (e : Event), e.op = OpChangeAll →
      (handle r e).2 = none
      ∧ mapKeys (handle r e).1.sw = mapKeys r.sw
      ∧ ∀ (k : Int) (d : Switch), mapGet r.sw k = some d →
          (d.typ ≠ e.typ → mapGet (handle r e).1.sw k = some d)
          ∧ (d.typ = e.typ →
              mapGet (handle r e).1.sw k = some { toEvent := e, fn := d.fn }))
    ∧ handle ⟨[(1, ⟨⟨1, 1, 0, false, false⟩, none⟩)], none⟩ ⟨0, 1, 3, true, false⟩
        = (⟨[(1, ⟨⟨0, 1, 3, true, false⟩, none⟩)], none⟩, none)
    ∧ (mapGet (handle ⟨[(1, ⟨⟨1, 1, 0, false, false⟩, none⟩)], none⟩
          ⟨0, 1, 3, true, false⟩).1.sw 1).map Switch.Index = some 0 := by
  refine ⟨?_, by decide, by decide⟩
  intro r e h
  rw [handle_changeAll r e h]
  refine ⟨rfl, mapKeys_changeAll r.sw e, ?_⟩
  intro k d hd
  simp only [mapGet_changeAll, hd, Option.map_some']
  constructor
  · intro ht
    simp [ht]
  · intro ht
    simp [ht]

/-! ### C4: the error cases of `handle` -/

/-- C4: when the event is a Change whose index is not a key of the map, or its
operation code is none of 0, 1, 2, 3, `handle` returns an error and the session
(keys and stored switches) is exactly as before. -/
theorem handle_error_keeps_state (r : RFKill) (e : Event)
    (h : (e.op = OpChange ∧ e.idx ∉ mapKeys r.sw)
      ∨ e.op ∉ [OpAdd, OpDel, OpChange, OpChangeAll]) :
    (handle r e).2 ≠ none
    ∧ (handle r e).1 = r
    ∧ (e.op = OpChange → (handle r e).2 = some (Error.changingNonExisting e.idx))
    ∧ (e.op ≠ OpChange → (handle r e).2 = some (Error.unknownOp e.op)) := by
  rcases h with ⟨hop, hk⟩ | hop
  · rw [handle_change_none r e hop ((mapGet_eq_none_iff _ _).2 hk)]
    simp [hop]
  · rw [handle_unknown r e hop]
    have : e.op ≠ OpChange := by
      intro hc
      exact hop (by simp [hc])
    simp [this]

/-- C4 witness: operation code 99 on a session holding switch 1. -/
theorem handle_error_keeps_state_witness :
    (handle ⟨[(1, ⟨⟨1, 1, 0, false, false⟩, none⟩)], none⟩ ⟨1, 1, 99, true, false⟩).2 ≠ none
    ∧ (handle ⟨[(1, ⟨⟨1, 1, 0, false, false⟩, none⟩)], none⟩ ⟨1, 1, 99, true, false⟩).1
        = ⟨[(1, ⟨⟨1, 1, 0, false, false⟩, none⟩)], none⟩
    ∧ ((⟨1, 1, 99, true, false⟩ : Event).op = OpChange →
        (handle ⟨[(1, ⟨⟨1, 1, 0, false, false⟩, none⟩)], none⟩ ⟨1, 1, 99, true, false⟩).2
          = some (Error.changingNonExisting (⟨1, 1, 99, true, false⟩ : Event).idx))
    ∧ ((⟨1, 1, 99, true, false⟩ : Event).op ≠ OpChange →
        (handle ⟨[(1, ⟨⟨1, 1, 0, false, false⟩, none⟩)], none⟩ ⟨1, 1, 99, true, false⟩).2
          = some (Error.unknownOp (⟨1, 1, 99, true, false⟩ : Event).op)) :=
  handle_error_keeps_state ⟨[(1, ⟨⟨1, 1, 0, false, false⟩, none⟩)], none⟩
    ⟨1, 1, 99, true, false⟩ (Or.inr (by decide))

/-! ### C5: order of Add, Change, Delete -/

/-- C5: from every session and for every index `i`, Add(i, wlan) then
Change(i, soft) then Delete(i) succeed one after the other, the entry for `i`
is soft-blocked after the Change and absent at the end; in the order Add,
Delete, Change the first two succeed and the Change returns the error for a
non-existing switch.  The fields the events leave open are arbitrary. -/
theorem handle_add_change_delete (r : RFKill) (i : Int) (s1 h1 h2 s3 h3 : Bool) (t2 t3 : Int) :
    (handle r ⟨i, TypeWLAN, OpAdd, s1, h1⟩).2 = none
    ∧ (handle (handle r ⟨i, TypeWLAN, OpAdd, s1, h1⟩).1 ⟨i, t2, OpChange, true, h2⟩).2 = none
    ∧ (mapGet (handle (handle r ⟨i, TypeWLAN, OpAdd, s1, h1⟩).1
          ⟨i, t2, OpChange, true, h2⟩).1.sw i).map Switch.SoftBlocked = some true
    ∧ (handle (handle (handle r ⟨i, TypeWLAN, OpAdd, s1, h1⟩).1 ⟨i, t2, OpChange, true, h2⟩).1
          ⟨i, t3, OpDel, s3, h3⟩).2 = none
    ∧ mapGet (handle (handle (handle r ⟨i, TypeWLAN, OpAdd, s1, h1⟩).1
          ⟨i, t2, OpChange, true, h2⟩).1 ⟨i, t3, OpDel, s3, h3⟩).1.sw i = none
    ∧ i ∉ mapKeys (handle (handle (handle r ⟨i, TypeWLAN, OpAdd, s1, h1⟩).1
          ⟨i, t2, OpChange, true, h2⟩).1 ⟨i, t3, OpDel, s3, h3⟩).1.sw
    ∧ (handle (handle r ⟨i, TypeWLAN, OpAdd, s1, h1⟩).1 ⟨i, t3, OpDel, s3, h3⟩).2 = none
    ∧ (handle (handle (handle r ⟨i, TypeWLAN, OpAdd, s1, h1⟩).1 ⟨i, t3, OpDel, s3, h3⟩).1
          ⟨i, t2, OpChange, true, h2⟩).2 = some (Error.changingNonExisting i) := by
  have hadd := handle_add r ⟨i, TypeWLAN, OpAdd, s1, h1⟩ rfl
  have hget : mapGet (handle r ⟨i, TypeWLAN, OpAdd, s1, h1⟩).1.sw i
      = some ⟨⟨i, TypeWLAN, OpAdd, s1, h1⟩, none⟩ := by
    rw [hadd]; exact mapGet_mapSet_self _ _ _
  have hchg := handle_change_some (handle r ⟨i, TypeWLAN, OpAdd, s1, h1⟩).1
    ⟨i, t2, OpChange, true, h2⟩ _ rfl hget
  have hdel := handle_del (handle (handle r ⟨i, TypeWLAN, OpAdd, s1, h1⟩).1
    ⟨i, t2, OpChange, true, h2⟩).1 ⟨i, t3, OpDel, s3, h3⟩ rfl
  have hdel' := handle_del (handle r ⟨i, TypeWLAN, OpAdd, s1, h1⟩).1 ⟨i, t3, OpDel, s3, h3⟩ rfl
  have hgone : mapGet (handle (handle r ⟨i, TypeWLAN, OpAdd, s1, h1⟩).1
      ⟨i, t3, OpDel, s3, h3⟩).1.sw i = none := by
    rw [hdel']; exact mapGet_mapDelete_self _ _
  have hend : mapGet (handle (handle (handle r ⟨i, TypeWLAN, OpAdd, s1, h1⟩).1
      ⟨i, t2, OpChange, true, h2⟩).1 ⟨i, t3, OpDel, s3, h3⟩).1.sw i = none := by
    rw [hdel]; exact mapGet_mapDelete_self _ _
  refine ⟨by rw [hadd], by rw [hchg], ?_, by rw [hdel], hend, (mapGet_eq_none_iff _ _).1 hend,
    by rw [hdel'], ?_⟩
  · rw [hchg]
    simp only [mapGet_mapSet_self]
    rfl
  · rw [handle_change_none _ ⟨i, t2, OpChange, true, h2⟩ rfl hgone]


/-! ### C7: `Switches` and the filters -/

theorem collect_foldl (f : Filter) (m : SwitchMap) (acc : List Switch) :
    m.foldl (fun ss p => if f p.2 then ss ++ [p.2] else ss) acc
      = acc ++ (m.map Prod.snd).filter f := by
  induction m generalizing acc with
  | nil => simp
  | cons p m ih =>
    rw [List.foldl_cons, ih]
    by_cases h : f p.2 = true
    · simp [h]
    · simp [h]

theorem collect_eq_filter (f : Filter) (m : SwitchMap) :
    collect f m = (m.map Prod.snd).filter f := by
  simpa [collect] using collect_foldl f m []

/-- C7: for every session, pending device input and filter `f`, `Switches`
returns no error and a list that is, up to order, the switches stored in the
map after the drain on which `f` is true, each entry counted once; a switch is
in the list exactly when it is stored under some key and passes `f`.  `Any`
passes every switch, `WithType t` exactly those whose `Type()` is `t`,
`WithIndex i` exactly those whose `Index()` is `i`.  On {1: wlan unblocked,
2: bluetooth soft-blocked}: `WithType` bluetooth gives switch 2, `WithIndex 1`
gives switch 1, `Any` gives both. -/
theorem switches_filter :
    (∀ (w : Nat) (r : RFKill) (pending : List ReadResult) (f : Filter),
      (Switches w r pending f).err = none
      ∧ (Switches w r pending f).r = (poll w r pending).r
      ∧ List.Perm (Switches w r pending f).ss
          (((Switches w r pending f).r.sw.map Prod.snd).filter f)
      ∧ (Switches w r pending f).ss.length
          = ((Switches w r pending f).r.sw.filter (fun p => f p.2)).length
      ∧ ∀ s : Switch, s ∈ (Switches w r pending f).ss ↔
          (∃ k : Int, (k, s) ∈ (Switches w r pending f).r.sw) ∧ f s = true)
    ∧ (∀ s : Switch, Any s = true)
    ∧ (∀ (t : SwitchType) (s : Switch), WithType t s = true ↔ s.Type = t)
    ∧ (∀ (i : Int) (s : Switch), WithIndex i s = true ↔ s.Index = i)
    ∧ (Switches 64 ⟨[(1, ⟨⟨1, TypeWLAN, OpAdd, false, false⟩, none⟩),
          (2, ⟨⟨2, TypeBluetooth, OpAdd, true, false⟩, none⟩)], none⟩ []
          (WithType TypeBluetooth)).ss = [⟨⟨2, TypeBluetooth, OpAdd, true, false⟩, none⟩]
    ∧ (Switches 64 ⟨[(1, ⟨⟨1, TypeWLAN, OpAdd, false, false⟩, none⟩),
          (2, ⟨⟨2, TypeBluetooth, OpAdd, true, false⟩, none⟩)], none⟩ []
          (WithIndex 1)).ss = [⟨⟨1, TypeWLAN, OpAdd, false, false⟩, none⟩]
    ∧ (Switches 64 ⟨[(1, ⟨⟨1, TypeWLAN, OpAdd, false, false⟩, none⟩),
          (2, ⟨⟨2, TypeBluetooth, OpAdd, true, false⟩, none⟩)], none⟩ [] Any).ss
        = [⟨⟨1, TypeWLAN, OpAdd, false, false⟩, none⟩,
           ⟨⟨2, TypeBluetooth, OpAdd, true, false⟩, none⟩] := by
  refine ⟨?_, fun _ => rfl, ?_, ?_, by decide, by decide, by decide⟩
  · intro w r pending f
    have hss : (Switches w r pending f).ss
        = (((Switches w r pending f).r.sw.map Prod.snd).filter f) := by
      simp only [Switches]
      exact collect_eq_filter f _
    refine ⟨rfl, rfl, ?_, ?_, ?_⟩
    · rw [hss]
    · rw [hss, List.filter_map, List.length_map]
      rfl
    · intro s
      rw [hss, List.mem_filter, List.mem_map]
      constructor
      · rintro ⟨⟨p, hp, rfl⟩, hf⟩
        exact ⟨⟨p.1, hp⟩, hf⟩
      · rintro ⟨⟨k, hk⟩, hf⟩
        exact ⟨⟨(k, s), hk, rfl⟩, hf⟩
  · intro t s
    simp [WithType]
  · intro i s
    simp [WithIndex]

/-! ### C8: `Block` and `Unblock` -/

/-- C8: for every switch with index `i`, `0 ≤ i < 2^31`, on every device,
`Block` hands `send` one event and the device receives one more record, the
eight bytes `i mod 256, (i / 2^8) mod 256, (i / 2^16) mod 256, (i / 2^24) mod
256` (little-endian `i`), type byte 0, operation 2 (Change), soft 1, hard 0;
`Unblock` does the same with soft 0.  The hard byte is 0 whatever the switch's
own `hard` is. -/
theorem block_unblock_record (s : Switch) (dev : Device) (h0 : 0 ≤ s.idx) (h1 : s.idx < 2 ^ 31) :
    (s.Block dev).1.written = dev.written ++ [marshal ⟨s.idx, 0, OpChange, true, false⟩]
    ∧ (marshal ⟨s.idx, 0, OpChange, true, false⟩).map (fun b => (b.val : Int))
        = [s.idx % 256, s.idx / 2 ^ 8 % 256, s.idx / 2 ^ 16 % 256, s.idx / 2 ^ 24 % 256, 0, 2, 1, 0]
    ∧ (s.Unblock dev).1.written = dev.written ++ [marshal ⟨s.idx, 0, OpChange, false, false⟩]
    ∧ (marshal ⟨s.idx, 0, OpChange, false, false⟩).map (fun b => (b.val : Int))
        = [s.idx % 256, s.idx / 2 ^ 8 % 256, s.idx / 2 ^ 16 % 256, s.idx / 2 ^ 24 % 256, 0, 2, 0, 0]
    ∧ s.idx % 256 + 2 ^ 8 * (s.idx / 2 ^ 8 % 256) + 2 ^ 16 * (s.idx / 2 ^ 16 % 256)
        + 2 ^ 24 * (s.idx / 2 ^ 24 % 256) = s.idx := by
  refine ⟨?_, ?_, ?_, ?_, by omega⟩
  · simp only [Switch.Block, send]
    split <;> (try split) <;> rfl
  · simp [marshal_eq, uint8_val, Int.shiftRight_eq_div_pow, OpChange, btoi]
  · simp only [Switch.Unblock, send]
    split <;> (try split) <;> rfl
  · simp [marshal_eq, uint8_val, Int.shiftRight_eq_div_pow, OpChange, btoi]

/-- C8 witness: `Block` on the hard-blocked switch with index 3, on a device
that has received nothing yet, writes the record 3,0,0,0, 0, 2, 1, 0. -/
theorem block_unblock_record_witness :
    ((Switch.Block ⟨⟨3, 1, 0, false, true⟩, none⟩ ⟨[], fun _ => (8, none)⟩).1.written
        = [] ++ [marshal ⟨3, 0, OpChange, true, false⟩]
      ∧ (marshal ⟨3, 0, OpChange, true, false⟩).map (fun b => (b.val : Int))
          = [3 % 256, 3 / 2 ^ 8 % 256, 3 / 2 ^ 16 % 256, 3 / 2 ^ 24 % 256, 0, 2, 1, 0]
      ∧ (Switch.Unblock ⟨⟨3, 1, 0, false, true⟩, none⟩ ⟨[], fun _ => (8, none)⟩).1.written
          = [] ++ [marshal ⟨3, 0, OpChange, false, false⟩]
      ∧ (marshal ⟨3, 0, OpChange, false, false⟩).map (fun b => (b.val : Int))
          = [3 % 256, 3 / 2 ^ 8 % 256, 3 / 2 ^ 16 % 256, 3 / 2 ^ 24 % 256, 0, 2, 0, 0]
      ∧ (3 : Int) % 256 + 2 ^ 8 * (3 / 2 ^ 8 % 256) + 2 ^ 16 * (3 / 2 ^ 16 % 256)
          + 2 ^ 24 * (3 / 2 ^ 24 % 256) = 3)
    ∧ (Switch.Block ⟨⟨3, 1, 0, false, true⟩, none⟩ ⟨[], fun _ => (8, none)⟩).1.written
        = [[3, 0, 0, 0, 0, 2, 1, 0]]
    ∧ (Switch.Block ⟨⟨3, 1, 0, false, true⟩, none⟩ ⟨[], fun _ => (8, none)⟩).2 = none :=
  ⟨block_unblock_record ⟨⟨3, 1, 0, false, true⟩, none⟩ ⟨[], fun _ => (8, none)⟩
    (by decide) (by decide), by decide, by decide⟩

/-! ### C10: `Type.String` -/

theorem typString_lookup_none (t : Int) (h : t < 0 ∨ 9 < t) : typString.lookup t = none := by
  have h0 : (t == TypeAll) = false := by simp [TypeAll]; omega
  have h1 : (t == TypeWLAN) = false := by simp [TypeWLAN]; omega
  have h2 : (t == TypeBluetooth) = false := by simp [TypeBluetooth]; omega
  have h3 : (t == TypeUWB) = false := by simp [TypeUWB]; omega
  have h4 : (t == TypeWimax) = false := by simp [TypeWimax]; omega
  have h5 : (t == TypeWWAN) = false := by simp [TypeWWAN]; omega
  have h6 : (t == TypeGPS) = false := by simp [TypeGPS]; omega
  have h7 : (t == TypeFM) = false := by simp [TypeFM]; omega
  have h8 : (t == TypeNFC) = false := by simp [TypeNFC]; omega
  have h9 : (t == TypeUnknown) = false := by simp [TypeUnknown]; omega
  simp only [typString, List.lookup, h0, h1, h2, h3, h4, h5, h6, h7, h8, h9]

/-- C10 (code defect shown): `Type.String` renders 0..8 as all, wlan,
bluetooth, uwb, wimax, wwan, gps, fm, nfc and 9 as "unknown", but every value
outside 0..9 (10, 255, -1, ...) as the misspelt "unkown", which is not
"unknown"; so `WithTypeName "unknown"` rejects a switch of type 10 and
`WithTypeName "unkown"` passes it.  `WithTypeName n` passes exactly the
switches whose `Type().String()` equals `n`. -/
theorem type_string_unrecognized :
    (SwitchType.String 0 = "all" ∧ SwitchType.String 1 = "wlan"
      ∧ SwitchType.String 2 = "bluetooth" ∧ SwitchType.String 3 = "uwb"
      ∧ SwitchType.String 4 = "wimax" ∧ SwitchType.String 5 = "wwan"
      ∧ SwitchType.String 6 = "gps" ∧ SwitchType.String 7 = "fm"
      ∧ SwitchType.String 8 = "nfc" ∧ SwitchType.String 9 = "unknown")
    ∧ (∀ t : SwitchType, t < 0 ∨ 9 < t → SwitchType.String t = "unkown")
    ∧ SwitchType.String 10 = "unkown" ∧ SwitchType.String 255 = "unkown"
    ∧ SwitchType.String (-1) = "unkown"
    ∧ SwitchType.String 10 ≠ "unknown"
    ∧ WithTypeName "unknown" ⟨⟨1, 10, 0, false, false⟩, none⟩ = false
    ∧ WithTypeName "unkown" ⟨⟨1, 10, 0, false, false⟩, none⟩ = true
    ∧ (∀ (n : String) (s : Switch), WithTypeName n s = true ↔ SwitchType.String s.Type = n) := by
  refine ⟨by decide, ?_, by decide, by decide, by decide, by decide, by decide, by decide, ?_⟩
  · intro t h
    simp only [SwitchType.String, typString_lookup_none t h]
  · intro n s
    simp [WithTypeName]


/-! ### C9: the notifications of `poll` -/

theorem handle_fn (r : RFKill) (e : Event) : (handle r e).1.fn = r.fn := by
  unfold handle
  split
  · rfl
  · split
    · rfl
    · split
      · split <;> rfl
      · split <;> rfl

/-- The invocations started before an iteration stay at the front of the list. -/
theorem pollLoop_calls_prefix (w : Nat) (reads : List ReadResult) (r : RFKill) (b : List Byte)
    (calls : List Call) : ∃ later, (pollLoop w reads r b calls).calls = calls ++ later := by
  induction reads generalizing r b calls with
  | nil => exact ⟨[], by simp [pollLoop]⟩
  | cons x rest ih =>
    cases x with
    | eagain => exact ⟨[], by simp [pollLoop]⟩
    | failed errno => exact ⟨[], by simp [pollLoop]⟩
    | data bytes =>
      by_cases hl : (bytes.length : Int) ≠ eventSize
      · exact ⟨[], by simp [pollLoop, hl]⟩
      · cases hu : unmarshal w (bytes ++ List.drop bytes.length b) with
        | none => exact ⟨[], by simp [pollLoop, hl, hu]⟩
        | some e =>
          cases hh : handle r e with
          | mk r' err =>
            cases err with
            | some err => exact ⟨[], by simp [pollLoop, hl, hu, hh]⟩
            | none =>
              obtain ⟨later, hlater⟩ :=
                ih r' (bytes ++ List.drop bytes.length b) (calls ++ notify r' e)
              refine ⟨notify r' e ++ later, ?_⟩
              simp only [pollLoop, hl, hu, hh, if_false]
              rw [hlater, List.append_assoc]

/-- The two statements of `rfkill.go:147-155`, by cases on the handlers. -/
theorem notify_eq (r : RFKill) (e : Event) :
    notify r e
      = ((mapGet r.sw e.idx).bind Switch.fn).toList.map (fun fn => Call.switchFn fn e)
        ++ r.fn.toList.map (fun fn => Call.sessionFn fn e) := by
  unfold notify Event.Index
  cases h1 : mapGet r.sw e.idx with
  | none => cases h2 : r.fn <;> simp
  | some s => cases h3 : s.fn <;> cases h2 : r.fn <;> simp [h3]

theorem notify_count_switchFn (r : RFKill) (e : Event) (fn : Handler) :
    (notify r e).count (Call.switchFn fn e)
      = if (mapGet r.sw e.idx).bind Switch.fn = some fn then 1 else 0 := by
  rw [notify_eq]
  cases (mapGet r.sw e.idx).bind Switch.fn with
  | none => cases r.fn <;> simp [List.count_cons]
  | some g =>
    by_cases hg : g = fn
    · cases r.fn <;> simp [List.count_cons, hg]
    · cases r.fn <;> simp [List.count_cons, hg]

theorem notify_count_sessionFn (r : RFKill) (e : Event) (fn : Handler) :
    (notify r e).count (Call.sessionFn fn e) = if r.fn = some fn then 1 else 0 := by
  rw [notify_eq]
  cases r.fn with
  | none => cases (mapGet r.sw e.idx).bind Switch.fn <;> simp [List.count_cons]
  | some g =>
    by_cases hg : g = fn
    · cases (mapGet r.sw e.idx).bind Switch.fn <;> simp [List.count_cons, hg]
    · cases (mapGet r.sw e.idx).bind Switch.fn <;> simp [List.count_cons, hg]

theorem notify_mem (r : RFKill) (e : Event) (c : Call) (hc : c ∈ notify r e) :
    ∃ fn, c = Call.switchFn fn e ∨ c = Call.sessionFn fn e := by
  unfold notify at hc
  rw [List.mem_append] at hc
  rcases hc with hc | hc
  · split at hc
    · split at hc
      · rename_i fn _
        exact ⟨fn, Or.inl (by simpa using hc)⟩
      · simp at hc
    · simp at hc
  · split at hc
    · rename_i fn _
      exact ⟨fn, Or.inr (by simpa using hc)⟩
    · simp at hc

set_option maxRecDepth 20000 in
/-- C9 (as stated, refuted): switch 1 has the per-switch handler 7 when `poll`
reads Delete(idx=1), respectively Add(idx=1); `handle` applies the event
without error and `poll` starts the session handler 9 only, the per-switch
handler 7 is not invoked. -/
theorem poll_delete_add_skip_switch_handler :
    (mapGet [(1, (⟨⟨1, 1, 0, false, false⟩, some 7⟩ : Switch))] 1).bind Switch.fn = some 7
    ∧ poll 64 ⟨[(1, ⟨⟨1, 1, 0, false, false⟩, some 7⟩)], some 9⟩
        [ReadResult.data (marshal ⟨1, 1, 1, false, false⟩)]
      = ⟨⟨[], some 9⟩, [], [Call.sessionFn 9 ⟨1, 1, 1, false, false⟩], none⟩
    ∧ poll 64 ⟨[(1, ⟨⟨1, 1, 0, false, false⟩, some 7⟩)], some 9⟩
        [ReadResult.data (marshal ⟨1, 1, 0, true, false⟩)]
      = ⟨⟨[(1, ⟨⟨1, 1, 0, true, false⟩, none⟩)], some 9⟩, [],
          [Call.sessionFn 9 ⟨1, 1, 0, true, false⟩], none⟩ := by
  refine ⟨by decide, ?_, ?_⟩ <;> rfl

/-- C9 (amended): when `poll` reads an 8-byte record that decodes to `e` and
`handle` applies `e` without error, leaving the session `r'`, the iteration
starts exactly the invocations `notify r' e` and goes on with the next read:
the per-switch handler `fn` is invoked once with `e` if after `handle` the map
holds a switch under `e.idx` whose handler is `fn`, and not at all otherwise;
independently the session handler is invoked once with `e` if one is
registered; nothing else is invoked.  For Change and ChangeAll the handler
found under `e.idx` after `handle` is the one that was there when the event
was read; for Add and Delete there is none. -/
theorem poll_notifies (w : Nat) (r r' : RFKill) (b bytes : List Byte) (rest : List ReadResult)
    (calls : List Call) (e : Event) (hlen : bytes.length = 8)
    (hdec : unmarshal w (bytes ++ b.drop bytes.length) = some e)
    (hok : handle r e = (r', none)) :
    pollLoop w (ReadResult.data bytes :: rest) r b calls
        = pollLoop w rest r' (bytes ++ b.drop bytes.length) (calls ++ notify r' e)
    ∧ (∃ later, (pollLoop w (ReadResult.data bytes :: rest) r b calls).calls
        = calls ++ notify r' e ++ later)
    ∧ (∀ fn : Handler, (notify r' e).count (Call.switchFn fn e)
        = if (mapGet r'.sw e.idx).bind Switch.fn = some fn then 1 else 0)
    ∧ (∀ fn : Handler, (notify r' e).count (Call.sessionFn fn e)
        = if r.fn = some fn then 1 else 0)
    ∧ (∀ c ∈ notify r' e, ∃ fn, c = Call.switchFn fn e ∨ c = Call.sessionFn fn e)
    ∧ (e.op = OpChange ∨ e.op = OpChangeAll →
        (mapGet r'.sw e.idx).bind Switch.fn = (mapGet r.sw e.idx).bind Switch.fn)
    ∧ (e.op = OpAdd ∨ e.op = OpDel → (mapGet r'.sw e.idx).bind Switch.fn = none) := by
  have hstep : pollLoop w (ReadResult.data bytes :: rest) r b calls
      = pollLoop w rest r' (bytes ++ b.drop bytes.length) (calls ++ notify r' e) := by
    have hsize : ¬ ((bytes.length : Int) ≠ eventSize) := by simp [hlen, eventSize]
    simp only [pollLoop, hsize, if_false, hdec, hok]
  have hfn : r'.fn = r.fn := by
    have := handle_fn r e
    rw [hok] at this
    exact this
  have hr' : r' = (handle r e).1 := by rw [hok]
  refine ⟨hstep, ?_, notify_count_switchFn r' e, ?_, notify_mem r' e, ?_, ?_⟩
  · rw [hstep]
    exact pollLoop_calls_prefix w rest r' _ _
  · intro fn
    rw [notify_count_sessionFn, hfn]
  · rintro (h | h)
    · cases hd : mapGet r.sw e.idx with
      | none =>
        rw [handle_change_none r e h hd] at hok
        simp at hok
      | some d =>
        rw [hr', handle_change_some r e d h hd]
        simp [mapGet_mapSet_self]
    · rw [hr', handle_changeAll r e h]
      simp only [mapGet_changeAll]
      cases hd : mapGet r.sw e.idx with
      | none => rfl
      | some d => by_cases ht : d.typ = e.typ <;> simp [ht]
  · rintro (h | h)
    · rw [hr', handle_add r e h]
      simp [mapGet_mapSet_self]
    · rw [hr', handle_del r e h]
      simp [mapGet_mapDelete_self]

/-- C9 witness: a Change of switch 1, which has the handler 7, on a session
with the handler 9: both are invoked once, in the iteration that read it. -/
theorem poll_notifies_witness :
    pollLoop 64 [ReadResult.data (marshal ⟨1, 1, 2, true, false⟩)]
        ⟨[(1, ⟨⟨1, 1, 0, false, false⟩, some 7⟩)], some 9⟩ [] []
      = pollLoop 64 [] ⟨[(1, ⟨⟨1, 1, 2, true, false⟩, some 7⟩)], some 9⟩
          (marshal ⟨1, 1, 2, true, false⟩
            ++ ([] : List Byte).drop (marshal ⟨1, 1, 2, true, false⟩).length)
          ([] ++ notify ⟨[(1, ⟨⟨1, 1, 2, true, false⟩, some 7⟩)], some 9⟩ ⟨1, 1, 2, true, false⟩)
    ∧ notify ⟨[(1, ⟨⟨1, 1, 2, true, false⟩, some 7⟩)], some 9⟩ ⟨1, 1, 2, true, false⟩
      = [Call.switchFn 7 ⟨1, 1, 2, true, false⟩, Call.sessionFn 9 ⟨1, 1, 2, true, false⟩] :=
  ⟨(poll_notifies 64 ⟨[(1, ⟨⟨1, 1, 0, false, false⟩, some 7⟩)], some 9⟩
      ⟨[(1, ⟨⟨1, 1, 2, true, false⟩, some 7⟩)], some 9⟩ [] (marshal ⟨1, 1, 2, true, false⟩) [] []
      ⟨1, 1, 2, true, false⟩ (by decide) (by decide) (by decide)).1, by decide⟩

/-! ### C6: the handshake with two callers -/

/-- C6 (code defect shown): two calls of `Switches` on one session.  Call 0
sends its request to the worker, which begins its first drain cycle; then the
request that call 1 sends on the same channel is paired with the receive of
call 0.  Call 0 is now reading the map while the worker is still inside
`poll`, and call 1 waits. -/
theorem switches_receive_pairs_with_other_request :
    run (start 2 0)
        [Action.sync (Proc.caller 0) Proc.worker, Action.sync (Proc.caller 1) (Proc.caller 0)]
      = some ⟨WorkerPc.draining, [CallerPc.reading, CallerPc.waiting], [], 1⟩
    ∧ step ⟨WorkerPc.draining, [CallerPc.waiting, CallerPc.requesting], [], 1⟩
        (Action.sync (Proc.caller 1) (Proc.caller 0))
      = some ⟨WorkerPc.draining, [CallerPc.reading, CallerPc.waiting], [], 1⟩ := by
  decide

/-! ### The handshake with a single caller -/

theorem step_loneStates (s s' : Handshake) (a : Action) (hs : s ∈ loneStates)
    (h : step s a = some s') : s' ∈ loneStates := by
  simp only [loneStates, List.mem_cons, List.mem_singleton, List.mem_nil_iff, or_false] at hs
  rcases hs with rfl | rfl | rfl | rfl | rfl <;>
    rcases a with ⟨p, q⟩ | _ | i | j
  all_goals first
    | (rcases p with _ | i | j <;> rcases q with _ | i' | j' <;>
        first
        | (simp [step, sending, receiving] at h; done)
        | (rcases i with _ | i <;> simp [step, sending, receiving, afterSend, afterReceive] at h <;>
            subst h <;> decide)
        | (rcases i' with _ | i' <;> simp [step, sending, receiving, afterSend, afterReceive] at h <;>
            subst h <;> decide))
    | (simp [step] at h; done)
    | (simp [step] at h; subst h; decide)
    | (rcases i with _ | i <;> simp [step] at h <;> subst h <;> decide)

theorem run_loneStates (acts : List Action) (s s' : Handshake) (hs : s ∈ loneStates)
    (h : run s acts = some s') : s' ∈ loneStates := by
  induction acts generalizing s with
  | nil =>
    simp only [run, Option.some.injEq] at h
    exact h ▸ hs
  | cons a acts ih =>
    simp only [run] at h
    cases hstep : step s a with
    | none => simp [hstep] at h
    | some s1 =>
      rw [hstep] at h
      exact ih s1 (step_loneStates s s1 a hs hstep) h

/-- With one call of `Switches` and no trigger loop the handshake works: in
every reachable state in which the call reads the map, the worker is back in
its `select` and the one drain cycle it ran began after the call's request. -/
theorem lone_caller_reads_after_drain (acts : List Action) (s : Handshake)
    (h : run (start 1 0) acts = some s) (hr : s.callers = [CallerPc.reading]) :
    s.worker = WorkerPc.idle ∧ s.cycles = 1 := by
  have hmem := run_loneStates acts (start 1 0) s (by decide) h
  simp only [loneStates, List.mem_cons, List.mem_singleton, List.mem_nil_iff, or_false] at hmem
  rcases hmem with rfl | rfl | rfl | rfl | rfl <;> simp_all

end Rfkill
